import Mathlib

/-!
Verification development for `xfer.py`, an HTCondor-driven file transfer and
synchronization tool.  The Python source is shallowly embedded: pure fragments
become Lean functions, the stateful log replay (`analyze`) becomes explicit
state passing over a state structure, filesystem effects become explicit
operation traces over a filesystem state, and fallible code returns `Except`.
Machine integers are modelled as `Int`/`Nat` (file sizes and counters have no
overflow behaviour in Python).  Python `float` timestamps are modelled at
integer granularity: no claim under study depends on fractional seconds.
Python `pathlib.Path` values are modelled as their (normalized) string
representation.
-/

namespace Xfer

/-- Decidable equality of `Except` results, used to evaluate the model on
concrete inputs. -/
instance exceptDecEq {ε α : Type} [DecidableEq ε] [DecidableEq α] :
    DecidableEq (Except ε α) := fun a b =>
  match a, b with
  | .ok x, .ok y =>
    if h : x = y then isTrue (congrArg Except.ok h)
    else isFalse (fun hc => h (Except.ok.inj hc))
  | .error x, .error y =>
    if h : x = y then isTrue (congrArg Except.error h)
    else isFalse (fun hc => h (Except.error.inj hc))
  | .ok _, .error _ => isFalse (fun hc => Except.noConfusion hc)
  | .error _, .ok _ => isFalse (fun hc => Except.noConfusion hc)

/-! ## Association-list model of Python `dict` and `set`

The Python code uses `dict` (path to size mappings) and `set` objects.  They
are modelled as association lists with first-match lookup, in-place update of
the first binding (as `dict` assignment does, keeping insertion order), and
erasure of the first binding.  Sets are lists with membership-tested insert.
-/

/-- Lookup of the first binding of key `k`, the model of `d.get(k)` /
`d[k]`. -/
def alookup (d : List (String × Int)) (k : String) : Option Int :=
  match d with
  | [] => none
  | (k1, v1) :: rest => if k1 = k then some v1 else alookup rest k

/-- Update the binding of `k` to `v` (replacing the first existing binding, or
appending a new one), the model of `d[k] = v`. -/
def aset (d : List (String × Int)) (k : String) (v : Int) : List (String × Int) :=
  match d with
  | [] => [(k, v)]
  | (k1, v1) :: rest => if k1 = k then (k, v) :: rest else (k1, v1) :: aset rest k v

/-- Remove the first binding of `k`, the model of `del d[k]`. -/
def aerase (d : List (String × Int)) (k : String) : List (String × Int) :=
  match d with
  | [] => []
  | (k1, v1) :: rest => if k1 = k then rest else (k1, v1) :: aerase rest k

/-- Set insert, the model of `s.add(x)`. -/
def sinsert (s : List String) (x : String) : List String :=
  if x ∈ s then s else s ++ [x]

@[simp] theorem alookup_nil (k : String) : alookup [] k = none := rfl

theorem alookup_isSome_iff_mem_keys (d : List (String × Int)) (k : String) :
    (alookup d k).isSome ↔ k ∈ d.map Prod.fst := by
  induction d with
  | nil => simp
  | cons hd tl ih =>
    obtain ⟨k1, v1⟩ := hd
    by_cases h : k1 = k <;> simp [alookup, h, ih]
    exact fun hk => (h hk.symm).elim

/-! ## Manifest entries

The model of the `ManifestEntry` class hierarchy (`File`, `Metadata`,
`TransferRequest`, `VerifyRequest`, `TransferVerified`, `SyncRequest`,
`SyncDone`).  Each Python class with its `keys` tuple becomes one constructor
whose arguments are the required fields in `keys` order.  `name` and
`remote_prefix` fields (Python `Path`) are modelled as `String`, `timestamp`
(Python `float`) as `Int`, `direction` (a `str` subclass enum) as `String`. -/
inductive Entry where
  | file (name : String) (size : Int)
  | metadata (name : String) (size : Int) (digest : String)
  | transferRequest (name : String) (size : Int)
  | verifyRequest (name : String) (size : Int)
  | transferVerified (name : String) (size : Int) (digest : String) (timestamp : Int)
  | syncRequest (direction : String) (remotePfx : String) (filesAtSource : Int)
      (filesToTransfer : Int) (bytesToTransfer : Int) (filesToVerify : Int)
      (bytesToVerify : Int) (timestamp : Int)
  | syncDone (timestamp : Int)
  deriving DecidableEq, Repr

/-! ## Work-item identifiers (`flatten_path`) -/

/-- Model of Python `str.replace`: replace non-overlapping occurrences of
`pat` left to right.  The fuel argument (instantiated with the string length,
which bounds the number of steps) only makes the recursion structural. -/
def pyReplaceAux (pat rep : List Char) : Nat → List Char → List Char
  | _, [] => []
  | 0, s => s
  | fuel + 1, c :: rest =>
    if pat ≠ [] ∧ pat.isPrefixOf (c :: rest) then
      rep ++ pyReplaceAux pat rep fuel ((c :: rest).drop pat.length)
    else
      c :: pyReplaceAux pat rep fuel rest

/-- Model of `s.replace(pat, rep)` for a non-empty pattern. -/
def pyReplace (s pat rep : String) : String :=
  ⟨pyReplaceAux pat.data rep.data s.data.length s.data⟩

/-- Model of `flatten_path`: `str(path).replace("/", "_SLASH_").replace(" ", "_SPACE_")`. -/
def flatten_path (path : String) : String :=
  pyReplace (pyReplace path "/" "_SLASH_") " " "_SPACE_"

/-! ## The Diff Engine (from `write_inner_dag`)

`write_inner_dag` computes, from the remote and local file inventories and the
prior transfer manifest, the set of files to transfer and the set of files to
verify, sorts both, and appends a `SyncRequest` followed by the per-file
request entries to the transfer manifest. -/

/-- Insertion into a sorted list of strings, used to model Python `sorted`. -/
def insertSorted (x : String) : List String → List String
  | [] => [x]
  | y :: ys => if x ≤ y then x :: y :: ys else y :: insertSorted x ys

/-- Model of Python `sorted` on path strings. -/
def sortStrings (l : List String) : List String :=
  l.foldr insertSorted []

theorem mem_insertSorted (x a : String) (l : List String) :
    a ∈ insertSorted x l ↔ a = x ∨ a ∈ l := by
  induction l with
  | nil => simp [insertSorted]
  | cons y ys ih =>
    by_cases h : x ≤ y
    · simp [insertSorted, h]
    · simp [insertSorted, h, ih]
      tauto

theorem mem_sortStrings (a : String) (l : List String) :
    a ∈ sortStrings l ↔ a ∈ l := by
  induction l with
  | nil => simp [sortStrings]
  | cons y ys ih =>
    simp [sortStrings, List.foldr] at *
    rw [mem_insertSorted]
    simp [ih]

/-- Model of `dest_files.get(fname, -1)`. -/
def destGet (dest : List (String × Int)) (fname : String) : Int :=
  (alookup dest fname).getD (-1)

/-- Model of the set comprehension building `files_to_transfer`:
`\x7b fname for fname, size in src_files.items() if size != dest_files.get(fname, -1) \x7d`. -/
def files_to_transfer_of (src dest : List (String × Int)) : List String :=
  (src.filter (fun p => p.2 ≠ destGet dest p.1)).map Prod.fst

/-- Model of the `files_verified` accumulation loop: the names of all
`TransferVerified` entries of the manifest, with the recorded size ignored. -/
def files_verified_of (log : List Entry) : List String :=
  log.foldl
    (fun acc e =>
      match e with
      | .transferVerified n _ _ _ => sinsert acc n
      | _ => acc)
    []

/-- Model of the `files_to_verify` loop: names of the remote inventory that are
neither scheduled for transfer nor present in `files_verified`. -/
def files_to_verify_of (remoteFiles : List (String × Int))
    (toTransfer verified : List String) : List String :=
  (remoteFiles.map Prod.fst).filter (fun n => n ∉ toTransfer ∧ n ∉ verified)

/-- Transfer direction (`pull` or `push`). -/
inductive Direction where
  | pull
  | push
  deriving DecidableEq, Repr

/-- Model of the diff portion of `write_inner_dag`: selects source/destination
inventories by direction, computes the sorted `files_to_transfer` and
`files_to_verify` lists.  Note that the `files_to_verify` loop iterates over
`remote_files` for both directions (the "rethink this logic for push vs. pull"
spot in the source). -/
def diffEngine (direction : Direction) (remoteFiles localFiles : List (String × Int))
    (log : List Entry) : List String × List String :=
  let src := match direction with | .pull => remoteFiles | .push => localFiles
  let dest := match direction with | .pull => localFiles | .push => remoteFiles
  let toTransfer := sortStrings (files_to_transfer_of src dest)
  let verified := files_verified_of log
  let toVerify := sortStrings (files_to_verify_of remoteFiles toTransfer verified)
  (toTransfer, toVerify)

/-! ## The Reconciliation State Machine (`analyze`)

`analyze` replays the transfer manifest in one forward pass.  Its mutable
state is the `sync_request` dictionary (outstanding files, transfer subset,
verified files, and the counters copied from the last `SyncRequest`), the
`sync_request_start` line marker, the `sync_count`, and the
`mismatched_filesizes` accumulator.  Failures (`raise InconsistentManifest`,
and `OSError` from `stat` on a missing file) become `Except` errors.  The
on-disk state consulted by `(local_dir / fname).stat().st_size` is passed in
as a function from relative path to optional size. -/

/-- Errors that `analyze` can raise. -/
inductive AErr where
  | inconsistent (msg : String)
  | statFail (path : String)
  deriving DecidableEq, Repr

/-- Replay state of `analyze`.  The counter and payload fields mirror the keys
that `sync_request.update(entry._info)` copies out of a `SyncRequest` entry;
they are only ever read while an epoch is open (i.e. after some `SyncRequest`
has set them). -/
structure AState where
  start : Option Nat
  direction : String
  remotePfx : String
  filesAtSource : Int
  filesToTransferC : Int
  bytesToTransferC : Int
  filesToVerifyC : Int
  bytesToVerifyC : Int
  tsReq : Int
  files : List (String × Int)
  transferFiles : List String
  verifiedFiles : List (String × Int)
  mismatched : List (String × Int × Int × Nat)
  syncCount : Nat
  deriving DecidableEq, Repr

/-- Initial replay state. -/
def initAState : AState :=
  { start := none
    direction := ""
    remotePfx := ""
    filesAtSource := 0
    filesToTransferC := 0
    bytesToTransferC := 0
    filesToVerifyC := 0
    bytesToVerifyC := 0
    tsReq := 0
    files := []
    transferFiles := []
    verifiedFiles := []
    mismatched := []
    syncCount := 0 }

/-- Record an on-disk size mismatch (the model of
`mismatched_filesizes[fname] = ...`, replacing any previous record). -/
def msSet (m : List (String × Int × Int × Nat)) (k : String) (v : Int × Int × Nat) :
    List (String × Int × Int × Nat) :=
  match m with
  | [] => [(k, v)]
  | (k1, v1) :: rest => if k1 = k then (k, v) :: rest else (k1, v1) :: msSet rest k v

/-- Drop a recorded mismatch (the model of `mismatched_filesizes.pop(fname, None)`). -/
def msPop (m : List (String × Int × Int × Nat)) (k : String) :
    List (String × Int × Int × Nat) :=
  match m with
  | [] => []
  | (k1, v1) :: rest => if k1 = k then rest else (k1, v1) :: msPop rest k

/-- One step of the replay loop body of `analyze`, processing a single manifest
entry at line `ln`.  `File` and `Metadata` entries match no `isinstance`
branch and leave the state unchanged. -/
def analyzeStep (disk : String → Option Int) (st : AState) (e : Entry) (ln : Nat) :
    Except AErr AState :=
  match e with
  | .syncRequest d rp fas ftt btt ftv btv ts =>
      -- The "sync request started but never finished" check in the source is
      -- commented out: a nested SyncRequest is accepted and merely updates
      -- the epoch payload, keeping files/transferFiles/verifiedFiles.
      .ok { st with
        syncCount := st.syncCount + 1
        start := some ln
        direction := d
        remotePfx := rp
        filesAtSource := fas
        filesToTransferC := ftt
        bytesToTransferC := btt
        filesToVerifyC := ftv
        bytesToVerifyC := btv
        tsReq := ts }
  | .transferRequest n s =>
      if st.start = none then
        .error (.inconsistent "Transfer request found before sync started; inconsistent log")
      else if alookup st.verifiedFiles n = some s then
        .ok st
      else
        .ok { st with
          files := aset st.files n s
          transferFiles := sinsert st.transferFiles n }
  | .verifyRequest n s =>
      if st.start = none then
        .error (.inconsistent "Transfer request found before sync started; inconsistent log")
      else if alookup st.verifiedFiles n = some s then
        .ok st
      else
        .ok { st with files := aset st.files n s }
  | .transferVerified n s _ _ =>
      if st.start = none then
        .error (.inconsistent "Transfer verification found before sync started; inconsistent log")
      else if alookup st.verifiedFiles n = some s then
        .ok st
      else
        match alookup st.files n with
        | none => .error (.inconsistent "File verified but was not requested.")
        | some expected =>
          if expected ≠ s then
            .error (.inconsistent "Verified file size is different than anticipated")
          else
            match disk n with
            | none => .error (.statFail n)
            | some localSize =>
              let mm := if localSize ≠ s then msSet st.mismatched n (s, localSize, ln)
                        else msPop st.mismatched n
              let st1 :=
                if n ∈ st.transferFiles then
                  { st with
                    filesToTransferC := st.filesToTransferC - 1
                    bytesToTransferC := st.bytesToTransferC - s }
                else
                  { st with
                    filesToVerifyC := st.filesToVerifyC - 1
                    bytesToVerifyC := st.bytesToVerifyC - s }
              .ok { st1 with
                mismatched := mm
                files := aerase st.files n
                verifiedFiles := aset st.verifiedFiles n s }
  | .syncDone _ =>
      if st.start = none then
        .error (.inconsistent "Transfer request found before sync started; inconsistent log")
      else if st.filesToVerifyC ≠ 0 ∨ st.bytesToVerifyC ≠ 0 ∨ st.files ≠ [] ∨
          st.filesToTransferC ≠ 0 ∨ st.bytesToTransferC ≠ 0 then
        .error (.inconsistent "SYNC_DONE but there is work remaining")
      else
        .ok { st with
          start := none
          files := []
          transferFiles := []
          verifiedFiles := [] }
  | .file _ _ => .ok st
  | .metadata _ _ _ => .ok st

/-- The replay loop of `analyze`, starting at line number `ln`. -/
def replayFrom (disk : String → Option Int) (st : AState) (ln : Nat) :
    List Entry → Except AErr AState
  | [] => .ok st
  | e :: rest =>
    match analyzeStep disk st e ln with
    | .error err => .error err
    | .ok st1 => replayFrom disk st1 (ln + 1) rest

/-- Full replay of a manifest from the initial state (entries paired with line
numbers 1, 2, ...). -/
def replay (disk : String → Option Int) (log : List Entry) : Except AErr AState :=
  replayFrom disk initAState 1 log

/-- Truthiness of the work-remaining test shared by the `SyncDone` handler and
the end-of-log handling. -/
def workRemaining (st : AState) : Prop :=
  st.filesToVerifyC ≠ 0 ∨ st.bytesToVerifyC ≠ 0 ∨ st.files ≠ [] ∨
    st.filesToTransferC ≠ 0 ∨ st.bytesToTransferC ≠ 0

instance (st : AState) : Decidable (workRemaining st) := by
  unfold workRemaining
  infer_instance

/-- Terminal verdicts of `analyze` on success. -/
inductive AOut where
  | appendedSyncDone
  | alreadyDone
  deriving DecidableEq, Repr

/-- End-of-log handling of `analyze`: the mismatched-sizes check, the
work-remaining check, and the final verdict.  On success the result carries
the list of entries appended to the manifest (a single `SyncDone` when the
open epoch is fully reconciled, nothing otherwise); every `raise` happens
before the append, so an error result appends nothing. -/
def analyzeEnd (now : Int) (st : AState) : Except AErr (AOut × List Entry) :=
  if st.mismatched ≠ [] then
    .error (.inconsistent "Local sizes of files did match anticipated sizes.")
  else if st.start ≠ none ∧ workRemaining st then
    .error (.inconsistent "There was work remaining!")
  else if st.start ≠ none then
    .ok (.appendedSyncDone, [.syncDone now])
  else if 0 < st.syncCount then
    .ok (.alreadyDone, [])
  else
    .error (.inconsistent "No synchronization found in manifest.")

/-- Model of `analyze`: replay the whole log, then apply the end-of-log
handling. -/
def analyze (disk : String → Option Int) (now : Int) (log : List Entry) :
    Except AErr (AOut × List Entry) :=
  match replay disk log with
  | .error err => .error err
  | .ok st => analyzeEnd now st

/-- Test distinguishing an `InconsistentManifest` failure from other outcomes. -/
def isInconsistent {α : Type} (r : Except AErr α) : Bool :=
  match r with
  | .error (.inconsistent _) => true
  | _ => false

/-! ## Supporting lemmas about the diff engine -/

/-- With duplicate-free keys (inventories are Python dicts), association-list
membership of a pair coincides with lookup. -/
theorem alookup_eq_some_iff_mem (d : List (String × Int)) (p : String) (s : Int)
    (hnd : (d.map Prod.fst).Nodup) : alookup d p = some s ↔ (p, s) ∈ d := by
  induction d with
  | nil => simp
  | cons hd tl ih =>
    obtain ⟨k1, v1⟩ := hd
    simp only [List.map_cons, List.nodup_cons] at hnd
    by_cases h : k1 = p
    · subst h
      simp only [alookup, if_pos rfl, ite_true, List.mem_cons, Option.some.injEq,
        Prod.mk.injEq, true_and]
      constructor
      · intro h1
        exact Or.inl h1.symm
      · rintro (h1 | h1)
        · exact h1.symm
        · exact absurd (List.mem_map_of_mem Prod.fst h1) hnd.1
    · simp only [alookup, if_neg h, List.mem_cons, Prod.mk.injEq, ih hnd.2]
      constructor
      · intro h1
        exact Or.inr h1
      · rintro (⟨h1, _⟩ | h1)
        · exact absurd h1.symm h
        · exact h1

/-- Membership in the computed transfer set. -/
theorem mem_files_to_transfer_of (src dest : List (String × Int)) (p : String) :
    p ∈ files_to_transfer_of src dest ↔
      ∃ s, (p, s) ∈ src ∧ s ≠ destGet dest p := by
  unfold files_to_transfer_of
  simp only [List.mem_map, List.mem_filter]
  constructor
  · rintro ⟨⟨a, b⟩, ⟨hmem, hne⟩, rfl⟩
    exact ⟨b, hmem, by simpa using hne⟩
  · rintro ⟨s, hmem, hne⟩
    exact ⟨(p, s), ⟨hmem, by simpa using hne⟩, rfl⟩

/-- Membership in the computed verify set. -/
theorem mem_files_to_verify_of (remote : List (String × Int))
    (toTransfer verified : List String) (p : String) :
    p ∈ files_to_verify_of remote toTransfer verified ↔
      p ∈ remote.map Prod.fst ∧ p ∉ toTransfer ∧ p ∉ verified := by
  unfold files_to_verify_of
  simp [List.mem_filter]

/-- The source inventory selected by the direction. -/
def srcOf (direction : Direction) (remoteFiles localFiles : List (String × Int)) :
    List (String × Int) :=
  match direction with | .pull => remoteFiles | .push => localFiles

/-- The destination inventory selected by the direction. -/
def destOf (direction : Direction) (remoteFiles localFiles : List (String × Int)) :
    List (String × Int) :=
  match direction with | .pull => localFiles | .push => remoteFiles

theorem diffEngine_eq (direction : Direction) (remoteFiles localFiles : List (String × Int))
    (log : List Entry) :
    diffEngine direction remoteFiles localFiles log =
      (sortStrings (files_to_transfer_of (srcOf direction remoteFiles localFiles)
          (destOf direction remoteFiles localFiles)),
        sortStrings (files_to_verify_of remoteFiles
          (sortStrings (files_to_transfer_of (srcOf direction remoteFiles localFiles)
            (destOf direction remoteFiles localFiles)))
          (files_verified_of log))) := by
  cases direction <;> rfl

/-- Membership in the first diff output under duplicate-free source keys and a
known source size. -/
theorem mem_diff_toTransfer (direction : Direction)
    (remoteFiles localFiles : List (String × Int)) (log : List Entry) (p : String) (s : Int)
    (hnd : ((srcOf direction remoteFiles localFiles).map Prod.fst).Nodup)
    (hs : alookup (srcOf direction remoteFiles localFiles) p = some s) :
    p ∈ (diffEngine direction remoteFiles localFiles log).1 ↔
      s ≠ destGet (destOf direction remoteFiles localFiles) p := by
  rw [diffEngine_eq]
  dsimp only
  rw [mem_sortStrings, mem_files_to_transfer_of]
  constructor
  · rintro ⟨s1, hmem, hne⟩
    have hs1 : alookup (srcOf direction remoteFiles localFiles) p = some s1 :=
      (alookup_eq_some_iff_mem _ p s1 hnd).2 hmem
    rw [hs] at hs1
    injection hs1 with h2
    rw [h2]
    exact hne
  · intro hne
    exact ⟨s, (alookup_eq_some_iff_mem _ p s hnd).1 hs, hne⟩

/-- Presence of a `TransferVerified` entry with a given name and exact size. -/
def hasVerifiedWithSize (log : List Entry) (n : String) (s : Int) : Bool :=
  log.any fun e =>
    match e with
    | .transferVerified n1 s1 _ _ => n1 == n && s1 == s
    | _ => false

/-! ## Claim C1

The spec claims that a log replaying to an open epoch with outstanding work
(and no on-disk mismatches) makes `analyze` report the remaining work, append
nothing, and terminate non-fatally.  The source instead raises
`InconsistentManifest("There was work remaining!")` at that point (after
logging the remaining counters, and indeed without appending anything). -/

/-- Disk contents used by the C1 scenario (no file is ever statted). -/
def c1disk : String → Option Int := fun _ => none

/-- C1 scenario log: an epoch opens with one file to transfer and the log ends
with the transfer still outstanding. -/
def c1log : List Entry :=
  [.syncRequest "pull" "r" 1 1 5 0 0 7, .transferRequest "a" 5]

/-- Replay state reached by the C1 scenario log. -/
def c1st : AState :=
  { start := some 1
    direction := "pull"
    remotePfx := "r"
    filesAtSource := 1
    filesToTransferC := 1
    bytesToTransferC := 5
    filesToVerifyC := 0
    bytesToVerifyC := 0
    tsReq := 7
    files := [("a", 5)]
    transferFiles := ["a"]
    verifiedFiles := []
    mismatched := []
    syncCount := 1 }

/-- C1 counterexample: on a log whose replay ends in an open epoch with one
outstanding transfer and no on-disk mismatches, `analyze` does not terminate
non-fatally: it raises `InconsistentManifest` ("There was work remaining!"). -/
theorem c1_counterexample :
    analyze c1disk 99 c1log =
      .error (.inconsistent "There was work remaining!") := by decide

/-- C1 (amended): for every log that replays to an open epoch with outstanding
files or non-zero remaining counters and no on-disk size mismatches, the
reconciliation appends nothing to the log and fails with
`InconsistentManifest` ("There was work remaining!"), after reporting the
remaining files and bytes via log messages; the failure leaves the log
untouched, so re-invocation later is safe. -/
theorem c1_open_epoch_outstanding_raises (disk : String → Option Int) (now : Int)
    (log : List Entry) (st : AState) (hrep : replay disk log = .ok st)
    (hmm : st.mismatched = []) (hopen : st.start ≠ none) (hwork : workRemaining st) :
    analyze disk now log = .error (.inconsistent "There was work remaining!") := by
  unfold analyze
  rw [hrep]
  show analyzeEnd now st = _
  unfold analyzeEnd
  rw [if_neg (by simp [hmm]), if_pos ⟨hopen, hwork⟩]

/-- Witness for C1 at the concrete scenario log. -/
theorem c1_witness :
    replay c1disk c1log = .ok c1st ∧
      analyze c1disk 99 c1log = .error (.inconsistent "There was work remaining!") :=
  ⟨by decide,
    c1_open_epoch_outstanding_raises c1disk 99 c1log c1st (by decide) (by decide)
      (by decide) (by decide)⟩

/-! ## Claim C2

The spec claims a `SyncRequest` inside an open epoch fails the replay with
`InconsistentManifest`.  In the source that check is commented out: a nested
`SyncRequest` is accepted, overwrites the epoch payload and counters, and
keeps the outstanding/verified file state. -/

/-- C2 scenario log: a second `SyncRequest` arrives while the first epoch is
still open. -/
def c2log : List Entry :=
  [.syncRequest "pull" "r" 0 0 0 0 0 1, .syncRequest "pull" "r" 0 0 0 0 0 2]

/-- C2 counterexample: a log with a `SyncRequest` inside an open epoch does not
fail with `InconsistentManifest` at that entry; the whole reconciliation
succeeds (and, the second epoch having no work, appends `SyncDone`). -/
theorem c2_counterexample :
    analyze c1disk 99 c2log = .ok (.appendedSyncDone, [.syncDone 99]) := by decide

/-- C2 (amended): a `SyncRequest` entry never fails the replay, open epoch or
not: the corresponding inconsistency check is commented out in the source.  It
records the new epoch start line and counters and keeps the outstanding-files,
transfer-subset and verified-files state. -/
theorem c2_sync_request_never_fails (disk : String → Option Int) (st : AState)
    (d rp : String) (fas ftt btt ftv btv ts : Int) (ln : Nat) :
    analyzeStep disk st (.syncRequest d rp fas ftt btt ftv btv ts) ln =
      .ok { st with
        syncCount := st.syncCount + 1
        start := some ln
        direction := d
        remotePfx := rp
        filesAtSource := fas
        filesToTransferC := ftt
        bytesToTransferC := btt
        filesToVerifyC := ftv
        bytesToVerifyC := btv
        tsReq := ts } := rfl

/-! ## Claim C3

The spec claims the diff engine skips a path from both `to_transfer` and
`to_verify` only when the log holds a `TransferVerified` entry with a matching
size.  The source builds `files_verified` from entry names alone, ignoring the
recorded size, so a `TransferVerified` entry with a stale size still suppresses
re-verification. -/

/-- C3 scenario log: the only `TransferVerified` entry for `a` records size 50
while the current source size is 100. -/
def c3log : List Entry := [.transferVerified "a" 50 "d" 0]

/-- C3 counterexample: with source and destination both holding `a` at size
100 and a logged `TransferVerified` of size 50, the diff excludes `a` from
both outputs even though no `TransferVerified` entry matches the current
size. -/
theorem c3_counterexample :
    diffEngine .pull [("a", 100)] [("a", 100)] c3log = ([], []) ∧
      hasVerifiedWithSize c3log "a" 100 = false := by decide

/-- C3 (amended): for a path of the source inventory (with duplicate-free
keys and a non-negative recorded size), the diff engine excludes the path from
both `to_transfer` and `to_verify` exactly when the destination size equals the
source size and the log contains a `TransferVerified` entry for the path of
any recorded size — the size of the logged entry is ignored. -/
theorem c3_skip_iff_name_verified (direction : Direction)
    (remoteFiles localFiles : List (String × Int)) (log : List Entry) (p : String) (s : Int)
    (hnd : ((srcOf direction remoteFiles localFiles).map Prod.fst).Nodup)
    (hs : alookup (srcOf direction remoteFiles localFiles) p = some s) (hpos : 0 ≤ s) :
    (p ∉ (diffEngine direction remoteFiles localFiles log).1 ∧
        p ∉ (diffEngine direction remoteFiles localFiles log).2) ↔
      (destGet (destOf direction remoteFiles localFiles) p = s ∧
        p ∈ files_verified_of log) := by
  have htt := mem_diff_toTransfer direction remoteFiles localFiles log p s hnd hs
  have htv : p ∈ (diffEngine direction remoteFiles localFiles log).2 ↔
      p ∈ remoteFiles.map Prod.fst ∧
        p ∉ (diffEngine direction remoteFiles localFiles log).1 ∧
        p ∉ files_verified_of log := by
    rw [diffEngine_eq]
    dsimp only
    rw [mem_sortStrings, mem_files_to_verify_of]
  have hmem_remote : destGet (destOf direction remoteFiles localFiles) p = s →
      p ∈ remoteFiles.map Prod.fst := by
    intro hdg
    cases direction with
    | pull =>
      have hs2 : alookup remoteFiles p = some s := hs
      have : (alookup remoteFiles p).isSome := by rw [hs2]; rfl
      exact (alookup_isSome_iff_mem_keys remoteFiles p).1 this
    | push =>
      have hdg2 : (alookup remoteFiles p).getD (-1) = s := hdg
      match hlk : alookup remoteFiles p with
      | none =>
        rw [hlk] at hdg2
        simp at hdg2
        omega
      | some v =>
        have : (alookup remoteFiles p).isSome := by rw [hlk]; rfl
        exact (alookup_isSome_iff_mem_keys remoteFiles p).1 this
  constructor
  · rintro ⟨h1, h2⟩
    have hdg : destGet (destOf direction remoteFiles localFiles) p = s := by
      by_contra hne
      exact h1 (htt.2 (fun heq => hne heq.symm))
    refine ⟨hdg, ?_⟩
    by_contra hnv
    exact h2 (htv.2 ⟨hmem_remote hdg, h1, hnv⟩)
  · rintro ⟨hdg, hv⟩
    have h1 : p ∉ (diffEngine direction remoteFiles localFiles log).1 := by
      intro hmem
      exact (htt.1 hmem) hdg.symm
    exact ⟨h1, fun hmem => ((htv.1 hmem).2.2 hv)⟩

/-- Witness for C3 at a concrete input where both sides of the equivalence
hold: source and destination sizes agree and a (stale-sized) `TransferVerified`
entry exists. -/
theorem c3_witness :
    ("a" ∉ (diffEngine .pull [("a", 100)] [("a", 100)] c3log).1 ∧
        "a" ∉ (diffEngine .pull [("a", 100)] [("a", 100)] c3log).2) ↔
      (destGet (destOf .pull [("a", 100)] [("a", 100)]) "a" = 100 ∧
        "a" ∈ files_verified_of c3log) :=
  c3_skip_iff_name_verified .pull [("a", 100)] [("a", 100)] c3log "a" 100
    (by decide) (by decide) (by decide)

/-! ## Claim C5

The spec claims `to_verify` is drawn from the source inventory for both
directions.  The source loop iterates over `remote_files` regardless of
direction, so under `push` the verification set is drawn from the destination
(remote) inventory, not the source (local) one. -/

/-- C5 counterexample: pushing with an empty local (source) inventory while
the remote (destination) holds `b`, the diff schedules `b` for verification
even though `b` is not in the source inventory at all. -/
theorem c5_counterexample :
    (diffEngine .push [("b", 50)] [] []).2 = ["b"] ∧
      alookup ([] : List (String × Int)) "b" = none := by decide

/-- C5 (amended): for both directions, `to_verify` consists exactly of the
paths of the remote inventory (the source under `pull` but the destination
under `push`) that are neither scheduled for transfer nor named by a
`TransferVerified` entry of the destination log. -/
theorem c5_to_verify_from_remote (direction : Direction)
    (remoteFiles localFiles : List (String × Int)) (log : List Entry) (p : String) :
    p ∈ (diffEngine direction remoteFiles localFiles log).2 ↔
      p ∈ remoteFiles.map Prod.fst ∧
        p ∉ (diffEngine direction remoteFiles localFiles log).1 ∧
        p ∉ files_verified_of log := by
  rw [diffEngine_eq]
  dsimp only
  rw [mem_sortStrings, mem_files_to_verify_of]

/-! ## Claim C9

The spec claims the verified-files mapping is carried across epoch boundaries,
so that after a `SyncDone` a repeated request for an unchanged verified file is
a no-op.  In the source, `SyncDone` resets the whole `sync_request` state
including `verified_files`; the carry only happens across repeated
`SyncRequest` entries of an epoch that was never closed. -/

/-- Disk contents for the C9 scenario: `a` is on disk with size 5. -/
def c9disk : String → Option Int := fun n => if n = "a" then some 5 else none

/-- C9 scenario log: `a` is transferred and verified in a first, closed epoch;
a second epoch then requests the same unchanged file again. -/
def c9log : List Entry :=
  [.syncRequest "pull" "r" 1 1 5 0 0 1, .transferRequest "a" 5,
    .transferVerified "a" 5 "d" 2, .syncDone 3,
    .syncRequest "pull" "r" 1 1 5 0 0 4, .transferRequest "a" 5]

/-- C9 counterexample: after a `SyncDone` closes the first epoch, a
`TransferRequest` for the very path verified there (same size) is not treated
as a no-op: it is added to the outstanding-files map, and the verified-files
map is empty — the carry does not survive `SyncDone`. -/
theorem c9_counterexample :
    (replay c9disk c9log).map (fun st => (st.files, st.verifiedFiles)) =
      .ok ([("a", 5)], []) := by decide

/-- C9 (amended): during a single replay the verified-files mapping is carried
across repeated `SyncRequest` entries of an epoch that is never closed — a
`TransferRequest` for a path already verified with the same size is then a
no-op — but `SyncDone` clears the verified-files mapping, so the carry does
not cross a closed epoch boundary. -/
theorem c9_verified_carry (disk : String → Option Int) (st st1 st2 : AState)
    (n d rp : String) (s fas ftt btt ftv btv ts ts2 : Int) (ln ln2 ln3 : Nat) :
    (st.start ≠ none → alookup st.verifiedFiles n = some s →
        analyzeStep disk st (.transferRequest n s) ln = .ok st) ∧
      (analyzeStep disk st (.syncRequest d rp fas ftt btt ftv btv ts) ln2 = .ok st1 →
        st1.verifiedFiles = st.verifiedFiles ∧ st1.start = some ln2) ∧
      (analyzeStep disk st (.syncDone ts2) ln3 = .ok st2 → st2.verifiedFiles = []) := by
  refine ⟨?_, ?_, ?_⟩
  · intro hopen hver
    simp only [analyzeStep]
    rw [if_neg hopen, if_pos hver]
  · intro h
    simp only [analyzeStep] at h
    injection h with h2
    subst h2
    exact ⟨rfl, rfl⟩
  · intro h
    simp only [analyzeStep] at h
    by_cases h1 : st.start = none
    · rw [if_pos h1] at h
      exact absurd h (by simp)
    · rw [if_neg h1] at h
      by_cases h2 : st.filesToVerifyC ≠ 0 ∨ st.bytesToVerifyC ≠ 0 ∨ st.files ≠ [] ∨
          st.filesToTransferC ≠ 0 ∨ st.bytesToTransferC ≠ 0
      · rw [if_pos h2] at h
        exact absurd h (by simp)
      · rw [if_neg h2] at h
        injection h with h3
        subst h3
        rfl

/-- Witness for C9 at a concrete state with an open epoch and a verified
file. -/
theorem c9_witness :
    analyzeStep c9disk
        { initAState with start := some 1, verifiedFiles := [("a", 5)] }
        (.transferRequest "a" 5) 7 =
      .ok { initAState with start := some 1, verifiedFiles := [("a", 5)] } :=
  (c9_verified_carry c9disk
      { initAState with start := some 1, verifiedFiles := [("a", 5)] }
      initAState initAState "a" "d" "r" 5 0 0 0 0 0 0 0 7 8 9).1
    (by decide) (by decide)

/-! ## Claim C4

Replay handling of a `TransferVerified` entry: outside any open epoch it is an
inconsistency; inside an open epoch, unless it is an already-verified no-op,
the path must be outstanding with exactly the recorded size. -/

/-- C4: processing a `TransferVerified` entry fails with
`InconsistentManifest` when there is no open epoch, and also when the entry is
not an already-verified no-op and the path is not outstanding with exactly the
recorded size (covering both "never requested" and "size different than
anticipated"). -/
theorem c4_transfer_verified_checks (disk : String → Option Int) (st : AState)
    (n dg : String) (s ts : Int) (ln : Nat)
    (h : st.start = none ∨
      (alookup st.verifiedFiles n ≠ some s ∧ alookup st.files n ≠ some s)) :
    isInconsistent (analyzeStep disk st (.transferVerified n s dg ts) ln) = true := by
  simp only [analyzeStep]
  rcases h with h | ⟨hv, hf⟩
  · rw [if_pos h]
    rfl
  · by_cases h1 : st.start = none
    · rw [if_pos h1]
      rfl
    · rw [if_neg h1, if_neg hv]
      match hlk : alookup st.files n with
      | none => rfl
      | some expected =>
        have hne : expected ≠ s := by
          intro heq
          rw [heq] at hlk
          exact hf hlk
        dsimp only
        rw [if_pos hne]
        rfl

/-- Witness for C4: a `TransferVerified` entry with no epoch open. -/
theorem c4_witness :
    isInconsistent
        (analyzeStep c1disk initAState (.transferVerified "a" 5 "d" 0) 1) = true :=
  c4_transfer_verified_checks c1disk initAState "a" "d" 5 0 1 (Or.inl rfl)

/-! ## The Hasher/Copier (`copy_with_hash`)

`copy_with_hash` writes to `tmp_path = dest_path.with_suffix(".tmp")`, block
by block (1 MB blocks), then flushes, fsyncs, copies the source metadata onto
the temp file, and finally renames the temp file onto the destination.  The
filesystem mutations are modelled as an explicit operation trace over a
filesystem state (path to optional byte content); interruption at any point
is the execution of a prefix of the trace. -/

/-- Index of the last occurrence of `c` in `s` (accumulator at offset `i`). -/
def lastIdxOfAux (c : Char) (s : List Char) (i : Nat) (acc : Option Nat) : Option Nat :=
  match s with
  | [] => acc
  | x :: rest => lastIdxOfAux c rest (i + 1) (if x = c then some i else acc)

/-- Index of the last occurrence of `c` in `s` (the model of `str.rfind`). -/
def lastIdxOf (c : Char) (s : List Char) : Option Nat :=
  lastIdxOfAux c s 0 none

/-- Length of the `pathlib` suffix of a final path component: the part from
the last dot, provided that dot is neither the first nor the last character
of the name. -/
def nameSuffixLen (name : List Char) : Nat :=
  match lastIdxOf '.' name with
  | some i => if 0 < i ∧ i + 1 < name.length then name.length - i else 0
  | none => 0

/-- Model of `pathlib.PurePath.with_suffix`: replace (or append, if there is
none) the suffix of the final path component. -/
def with_suffix (p : String) (suf : String) : String :=
  let chars := p.data
  let nameStart := ((lastIdxOf '/' chars).map (· + 1)).getD 0
  let dir := chars.take nameStart
  let name := chars.drop nameStart
  ⟨dir ++ name.take (name.length - nameSuffixLen name) ++ suf.data⟩

/-- A filesystem state: path to optional byte content. -/
def FS : Type := String → Option (List Nat)

/-- Filesystem mutations performed by `copy_with_hash`. -/
inductive FsOp where
  | create (p : String)
  | writeChunk (p : String) (chunk : List Nat)
  | fsyncFile (p : String)
  | copystat (src dst : String)
  | rename (src dst : String)
  deriving DecidableEq, Repr

/-- Effect of one filesystem operation.  `create` models `open(mode="wb")`
(truncate/create), `writeChunk` appends to the open file, `fsyncFile` and
`copystat` do not change any file content, `rename` atomically moves the
source onto the destination. -/
def applyOp (fs : FS) (op : FsOp) : FS :=
  match op with
  | .create p => fun q => if q = p then some [] else fs q
  | .writeChunk p chunk => fun q => if q = p then some ((fs p).getD [] ++ chunk) else fs q
  | .fsyncFile _ => fs
  | .copystat _ _ => fs
  | .rename src dst => fun q => if q = dst then fs src else if q = src then none else fs q

/-- Execution of a trace of filesystem operations. -/
def applyOps (fs : FS) (ops : List FsOp) : FS :=
  ops.foldl applyOp fs

/-- Split content into blocks of `blockSize` bytes (the fuel, instantiated
with the content length, only makes the recursion structural). -/
def chunksAux (blockSize : Nat) : Nat → List Nat → List (List Nat)
  | _, [] => []
  | 0, _ => []
  | fuel + 1, content => content.take blockSize :: chunksAux blockSize fuel (content.drop blockSize)

/-- The 1 MB read/write blocks of the copy loop. -/
def chunks (content : List Nat) : List (List Nat) :=
  chunksAux (2 ^ 20) content.length content

/-- The filesystem operations of `copy_with_hash` before the final rename:
create the temp sibling, write every block to it, fsync it, and copy the
source metadata onto it.  (The hash is computed in memory alongside and
mutates no file.) -/
def opsBeforeRename (src dst : String) (content : List Nat) : List FsOp :=
  let tmp := with_suffix dst ".tmp"
  .create tmp :: (chunks content).map (.writeChunk tmp ·) ++ [.fsyncFile tmp, .copystat src tmp]

/-- The complete filesystem trace of `copy_with_hash`. -/
def copy_with_hash_ops (src dst : String) (content : List Nat) : List FsOp :=
  opsBeforeRename src dst content ++ [.rename (with_suffix dst ".tmp") dst]

/-- An operation that leaves path `q` untouched in every filesystem state. -/
def preservesAt (q : String) (op : FsOp) : Prop :=
  ∀ fs : FS, applyOp fs op q = fs q

theorem applyOps_preservesAt (q : String) (ops : List FsOp)
    (h : ∀ op ∈ ops, preservesAt q op) (fs : FS) : applyOps fs ops q = fs q := by
  induction ops generalizing fs with
  | nil => rfl
  | cons op rest ih =>
    have h1 : applyOps fs (op :: rest) = applyOps (applyOp fs op) rest := rfl
    rw [h1, ih (fun o ho => h o (List.mem_cons_of_mem op ho)) (applyOp fs op),
      h op (List.mem_cons_self op rest) fs]

theorem opsBeforeRename_preservesAt (src dst : String) (content : List Nat)
    (hne : with_suffix dst ".tmp" ≠ dst) :
    ∀ op ∈ opsBeforeRename src dst content, preservesAt dst op := by
  intro op hop
  unfold opsBeforeRename at hop
  rcases List.mem_cons.1 hop with h | h
  · subst h
    intro fs
    simp only [applyOp]
    rw [if_neg (fun hq => hne hq.symm)]
  · rcases List.mem_append.1 h with h1 | h1
    · obtain ⟨chunk, _, rfl⟩ := List.mem_map.1 h1
      intro fs
      simp only [applyOp]
      rw [if_neg (fun hq => hne hq.symm)]
    · rcases List.mem_cons.1 h1 with h2 | h2
      · subst h2
        intro fs
        rfl
      · rcases List.mem_cons.1 h2 with h3 | h3
        · subst h3
          intro fs
          rfl
        · exact absurd h3 (List.not_mem_nil op)

/-! ## Claim C7

The spec claims that for every source and destination path, interruption of
`copy_with_hash` before the final rename leaves the destination path absent or
with its pre-existing content, because all writes go to a temporary sibling.
The temp path is `dest_path.with_suffix(".tmp")`, which replaces an existing
suffix: for a destination whose name already ends in `.tmp` the "temporary
sibling" is the destination itself, and partial content is visible there. -/

/-- Pre-existing filesystem for the C7 counterexample: the destination
`a.tmp` holds two bytes `[7, 7]`; the source `s` holds `[1, 2]`. -/
def c7fs : FS := fun p =>
  if p = "a.tmp" then some [7, 7] else if p = "s" then some [1, 2] else none

/-- C7 counterexample: for destination path `a.tmp`, the temp path equals the
destination, and already the first operation of `copy_with_hash` (a prefix of
its pre-rename trace) truncates the destination in place: afterwards the
destination holds `[]`, which is neither absent nor its pre-existing content
`[7, 7]`. -/
theorem c7_counterexample :
    [FsOp.create "a.tmp"] <+: opsBeforeRename "s" "a.tmp" [1, 2] ∧
      applyOps c7fs [FsOp.create "a.tmp"] "a.tmp" = some [] ∧
      c7fs "a.tmp" = some [7, 7] := by
  refine ⟨⟨(opsBeforeRename "s" "a.tmp" [1, 2]).tail, by decide⟩, by decide, by decide⟩

/-- C7 (amended): whenever `dest_path.with_suffix(".tmp")` differs from the
destination path itself (i.e. the destination's name does not already end in
`.tmp`), executing any prefix of the `copy_with_hash` trace that stops before
the final rename leaves the destination path exactly as it was: absent if it
was absent, and with its pre-existing content otherwise. -/
theorem c7_interrupted_preserves_dst (src dst : String) (content : List Nat)
    (fs : FS) (pre : List FsOp) (hne : with_suffix dst ".tmp" ≠ dst)
    (hpre : pre <+: opsBeforeRename src dst content) :
    applyOps fs pre dst = fs dst :=
  applyOps_preservesAt dst pre
    (fun op hop =>
      opsBeforeRename_preservesAt src dst content hne op (hpre.sublist.subset hop))
    fs

/-- Witness for C7: a full pre-rename trace for an ordinary destination name
leaves the (absent) destination absent. -/
theorem c7_witness :
    applyOps (fun _ => none) (opsBeforeRename "s" "a.txt" [1, 2]) "a.txt" =
      (fun _ => none : FS) "a.txt" :=
  c7_interrupted_preserves_dst "s" "a.txt" [1, 2] (fun _ => none)
    (opsBeforeRename "s" "a.txt" [1, 2]) (by decide) List.prefix_rfl

/-! ## The Sync Log appends (C8)

Each place that appends to the transfer manifest is modelled as the trace of
Python file-object calls it performs: `verify_metadata` writes the
`TransferVerified` line, then calls `f.flush()` and `os.fsync(f.fileno())`;
`write_inner_dag` writes the `SyncRequest` line and the request lines and
merely closes the file (a close flushes userspace buffers but does not force
stable storage); `analyze` writes the `SyncDone` line and merely closes. -/

/-- File-object calls performed while appending to the Sync Log. -/
inductive IOAct where
  | openApp (path : String)
  | writeLine (line : String)
  | flushCall
  | fsyncCall
  | closeCall
  deriving DecidableEq, Repr

/-- Placeholder for the serialized form of an entry in an append trace (the
wire format itself is modelled separately by `serializeEntry`). -/
def lineOf (e : Entry) : String :=
  toString (repr e)

/-- Append trace of `verify_metadata` (src/xfer.py:826-835): one
`TransferVerified` line, then `flush`, then `fsync`, then the context-manager
close. -/
def verify_metadata_append_ops (mp name digest : String) (size ts : Int) : List IOAct :=
  [.openApp mp, .writeLine (lineOf (.transferVerified name size digest ts)),
    .flushCall, .fsyncCall, .closeCall]

/-- Append trace of `write_inner_dag` (src/xfer.py:607-623): the `SyncRequest`
line, the sorted `TransferRequest` lines, the sorted `VerifyRequest` lines,
and the context-manager close — with no flush and no fsync call. -/
def write_inner_dag_append_ops (mp : String) (sr : Entry)
    (transferReqs verifyReqs : List (String × Int)) : List IOAct :=
  .openApp mp :: .writeLine (lineOf sr) ::
    (transferReqs.map (fun p => .writeLine (lineOf (.transferRequest p.1 p.2))) ++
      verifyReqs.map (fun p => .writeLine (lineOf (.verifyRequest p.1 p.2))) ++
      [.closeCall])

/-- Append trace of the `SyncDone` append in `analyze` (src/xfer.py:1072-1074):
one line and the context-manager close — with no flush and no fsync call. -/
def analyze_sync_done_append_ops (mp : String) (now : Int) : List IOAct :=
  [.openApp mp, .writeLine (lineOf (.syncDone now)), .closeCall]

/-! ## Claim C8

The spec claims every Sync Log append (SyncRequest, TransferRequest,
VerifyRequest, TransferVerified and SyncDone alike) flushes and fsyncs before
returning.  Only the `TransferVerified` append in `verify_metadata` does; the
`write_inner_dag` append (SyncRequest/TransferRequest/VerifyRequest) and the
`SyncDone` append in `analyze` close the file without any fsync. -/

/-- C8 counterexample: the `SyncDone` append performs no fsync call at all
before returning. -/
theorem c8_counterexample :
    IOAct.fsyncCall ∉ analyze_sync_done_append_ops "transfer_manifest.txt" 0 := by
  decide

/-- C8 (amended): the `TransferVerified` append in `verify_metadata` flushes
and forces the data to stable storage before returning, but the
`SyncRequest`/`TransferRequest`/`VerifyRequest` append of `write_inner_dag`
and the `SyncDone` append of `analyze` contain no fsync call (they only flush
on close), for every manifest path and entry payload. -/
theorem c8_only_transfer_verified_fsyncs (mp name digest : String) (size ts now : Int)
    (sr : Entry) (transferReqs verifyReqs : List (String × Int)) :
    IOAct.fsyncCall ∈ verify_metadata_append_ops mp name digest size ts ∧
      IOAct.fsyncCall ∉ write_inner_dag_append_ops mp sr transferReqs verifyReqs ∧
      IOAct.fsyncCall ∉ analyze_sync_done_append_ops mp now := by
  refine ⟨?_, ?_, ?_⟩
  · simp [verify_metadata_append_ops]
  · intro h
    unfold write_inner_dag_append_ops at h
    rcases List.mem_cons.1 h with h1 | h1
    · exact IOAct.noConfusion h1
    rcases List.mem_cons.1 h1 with h2 | h2
    · exact IOAct.noConfusion h2
    rcases List.mem_append.1 h2 with h3 | h3
    · rcases List.mem_append.1 h3 with h4 | h4
      · obtain ⟨p, _, hp⟩ := List.mem_map.1 h4
        exact IOAct.noConfusion hp
      · obtain ⟨p, _, hp⟩ := List.mem_map.1 h4
        exact IOAct.noConfusion hp
    · rcases List.mem_cons.1 h3 with h4 | h4
      · exact IOAct.noConfusion h4
      · exact absurd h4 (List.not_mem_nil _)
  · simp [analyze_sync_done_append_ops]

/-! ## The wire format (serialization and parsing of manifest entries)

`ManifestEntry.__str__` produces `TAG <json-object>` where the tag is the
upper-snake-case class name and the object is `json.dumps` of the field
mapping in `keys` order; `parse_manifest_entry` strips the line, splits off
the tag, looks the tag up in `ENTRY_TYPE_TO_CLASS` (a `KeyError` for unknown
tags), runs `json.loads` on the remainder and constructs the entry class,
which validates the required keys.  The JSON layer is modelled for the value
shapes that occur in entries: flat objects whose values are strings and
integers.  String escaping covers the two mandatory escapes, the short
control escapes and `\uXXXX` for the remaining control characters;
supplementary-plane `ensure_ascii` escaping and float literals are
encoding-level details of the Python `json` library that no entry in this
model produces. -/

/-- JSON values occurring in manifest entries. -/
inductive Jval where
  | jstr (s : String)
  | jint (n : Int)
  deriving DecidableEq, Repr

/-- The double-quote character. -/
def quoteChar : Char := Char.ofNat 34

/-- The backslash character. -/
def backslashChar : Char := Char.ofNat 92

/-- The opening-brace character. -/
def lbraceChar : Char := Char.ofNat 123

/-- The closing-brace character. -/
def rbraceChar : Char := Char.ofNat 125

/-- The decimal digit character for `n < 10`. -/
def digitChar (n : Nat) : Char := Char.ofNat (48 + n)

/-- The lowercase hexadecimal digit character for `n < 16`. -/
def hexDigitChar (n : Nat) : Char :=
  if n < 10 then Char.ofNat (48 + n) else Char.ofNat (87 + n)

/-- Decimal digits of `n`, most significant first (the fuel, instantiated
with `n + 1` which bounds the digit count, only makes the recursion
structural). -/
def natToCharsAux (fuel n : Nat) : List Char :=
  match fuel with
  | 0 => []
  | fuel + 1 =>
    if n < 10 then [digitChar n]
    else natToCharsAux fuel (n / 10) ++ [digitChar (n % 10)]

/-- Decimal representation of a natural number. -/
def natToChars (n : Nat) : List Char := natToCharsAux (n + 1) n

/-- Decimal representation of an integer (the model of the Python `repr` of
an `int`, as emitted by `json.dumps`). -/
def intToChars : Int → List Char
  | .ofNat m => natToChars m
  | .negSucc m => '-' :: natToChars (m + 1)

/-- JSON escape of one character (the model of the `json.dumps` string
escaper). -/
def escChar (c : Char) : List Char :=
  if c = quoteChar then [backslashChar, quoteChar]
  else if c = backslashChar then [backslashChar, backslashChar]
  else if c = Char.ofNat 10 then [backslashChar, 'n']
  else if c = Char.ofNat 9 then [backslashChar, 't']
  else if c = Char.ofNat 13 then [backslashChar, 'r']
  else if c = Char.ofNat 8 then [backslashChar, 'b']
  else if c = Char.ofNat 12 then [backslashChar, 'f']
  else if c.toNat < 32 then
    [backslashChar, 'u', '0', '0', hexDigitChar (c.toNat / 16), hexDigitChar (c.toNat % 16)]
  else [c]

/-- JSON escape of a character sequence. -/
def escList : List Char → List Char
  | [] => []
  | c :: cs => escChar c ++ escList cs

/-- A JSON string literal: quote, escaped content, quote. -/
def escString (s : String) : List Char :=
  quoteChar :: escList s.data ++ [quoteChar]

/-- Rendering of a JSON value. -/
def renderJval : Jval → List Char
  | .jstr s => escString s
  | .jint n => intToChars n

/-- Rendering of the key-value pairs of a flat JSON object with the
`json.dumps` default separators (`", "` between items, `": "` after keys). -/
def renderPairs : List (String × Jval) → List Char
  | [] => []
  | [(k, v)] => escString k ++ ':' :: ' ' :: renderJval v
  | (k, v) :: rest => escString k ++ ':' :: ' ' :: renderJval v ++ ',' :: ' ' :: renderPairs rest

/-- Rendering of a flat JSON object. -/
def renderObj (flds : List (String × Jval)) : List Char :=
  lbraceChar :: renderPairs flds ++ [rbraceChar]

/-- The wire tag of each entry variant (`camel_to_upper_snake` of the Python
class name, e.g. `TransferRequest` to `TRANSFER_REQUEST`). -/
def entryTag : Entry → String
  | .file .. => "FILE"
  | .metadata .. => "METADATA"
  | .transferRequest .. => "TRANSFER_REQUEST"
  | .verifyRequest .. => "VERIFY_REQUEST"
  | .transferVerified .. => "TRANSFER_VERIFIED"
  | .syncRequest .. => "SYNC_REQUEST"
  | .syncDone .. => "SYNC_DONE"

/-- The field mapping of each entry variant, in `keys` order (the order in
which `__init__` builds `_info` and `json.dumps` serializes it). -/
def entryFields : Entry → List (String × Jval)
  | .file n s => [("name", .jstr n), ("size", .jint s)]
  | .metadata n s dg => [("name", .jstr n), ("size", .jint s), ("digest", .jstr dg)]
  | .transferRequest n s => [("name", .jstr n), ("size", .jint s)]
  | .verifyRequest n s => [("name", .jstr n), ("size", .jint s)]
  | .transferVerified n s dg ts =>
      [("name", .jstr n), ("size", .jint s), ("digest", .jstr dg), ("timestamp", .jint ts)]
  | .syncRequest d rp fas ftt btt ftv btv ts =>
      [("direction", .jstr d), ("remote_prefix", .jstr rp), ("files_at_source", .jint fas),
        ("files_to_transfer", .jint ftt), ("bytes_to_transfer", .jint btt),
        ("files_to_verify", .jint ftv), ("bytes_to_verify", .jint btv), ("timestamp", .jint ts)]
  | .syncDone ts => [("timestamp", .jint ts)]

/-- Model of `ManifestEntry.__str__`: `TAG <json-object>`. -/
def serializeEntry (e : Entry) : String :=
  ⟨(entryTag e).data ++ ' ' :: renderObj (entryFields e)⟩

/-- Whitespace test for `str.strip` / `str.split` / JSON whitespace (space,
tab, newline, carriage return). -/
def isWs (c : Char) : Bool :=
  c = ' ' ∨ c = Char.ofNat 9 ∨ c = Char.ofNat 10 ∨ c = Char.ofNat 13

/-- Drop leading whitespace. -/
def skipWs (s : List Char) : List Char :=
  s.dropWhile isWs

/-- Model of `str.strip`. -/
def stripChars (s : List Char) : List Char :=
  ((skipWs s).reverse.dropWhile isWs).reverse

/-- The leading run of non-whitespace characters and the remainder. -/
def takeUntilWs : List Char → List Char × List Char
  | [] => ([], [])
  | c :: rest =>
    if isWs c then ([], c :: rest)
    else
      let (t, r) := takeUntilWs rest
      (c :: t, r)

/-- Model of `str.split(maxsplit=1)` followed by unpacking into two names:
the first whitespace-free token and the remainder with its leading whitespace
dropped; `none` (a `ValueError`) when there is no second part. -/
def splitFirstWs (s : List Char) : Option (List Char × List Char) :=
  let (tok, rest) := takeUntilWs s
  let rest := skipWs rest
  if rest = [] then none else some (tok, rest)

/-- The value of a hexadecimal digit character. -/
def hexVal (c : Char) : Option Nat :=
  if 48 ≤ c.toNat ∧ c.toNat ≤ 57 then some (c.toNat - 48)
  else if 97 ≤ c.toNat ∧ c.toNat ≤ 102 then some (c.toNat - 87)
  else if 65 ≤ c.toNat ∧ c.toNat ≤ 70 then some (c.toNat - 55)
  else none

/-- Prepend a character to the string part of a string-parse result. -/
def mapCons (c : Char) :
    Except String (List Char × List Char) → Except String (List Char × List Char)
  | .ok (cs, r) => .ok (c :: cs, r)
  | .error e => .error e

/-- Combined value of four hexadecimal digit characters. -/
def hexQuad (h1 h2 h3 h4 : Char) : Option Nat :=
  match hexVal h1, hexVal h2, hexVal h3, hexVal h4 with
  | some d1, some d2, some d3, some d4 => some (4096 * d1 + 256 * d2 + 16 * d3 + d4)
  | _, _, _, _ => none

/-- Decode a `\uXXXX` escape, prepending the decoded character to the
continuation result. -/
def parseHexEsc (h1 h2 h3 h4 : Char) (k : Except String (List Char × List Char)) :
    Except String (List Char × List Char) :=
  match hexQuad h1 h2 h3 h4 with
  | some v => mapCons (Char.ofNat v) k
  | none => .error "invalid unicode escape"

/-- Parse the body of a JSON string literal (after the opening quote),
returning the decoded characters and the remainder after the closing
quote. -/
def parseJStringAux : List Char → Except String (List Char × List Char)
  | [] => .error "unterminated string"
  | c :: rest =>
    if c = quoteChar then .ok ([], rest)
    else if c = backslashChar then
      match rest with
      | [] => .error "unterminated escape"
      | e :: r =>
        if e = quoteChar ∨ e = backslashChar ∨ e = '/' then mapCons e (parseJStringAux r)
        else if e = 'n' then mapCons (Char.ofNat 10) (parseJStringAux r)
        else if e = 't' then mapCons (Char.ofNat 9) (parseJStringAux r)
        else if e = 'r' then mapCons (Char.ofNat 13) (parseJStringAux r)
        else if e = 'b' then mapCons (Char.ofNat 8) (parseJStringAux r)
        else if e = 'f' then mapCons (Char.ofNat 12) (parseJStringAux r)
        else if e = 'u' then
          match r with
          | h1 :: h2 :: h3 :: h4 :: r2 => parseHexEsc h1 h2 h3 h4 (parseJStringAux r2)
          | _ => .error "invalid unicode escape"
        else .error "invalid escape"
    else mapCons c (parseJStringAux rest)

/-- The leading run of decimal digits and the remainder. -/
def takeDigits : List Char → List Char × List Char
  | [] => ([], [])
  | c :: rest =>
    if c.isDigit then
      let (ds, r) := takeDigits rest
      (c :: ds, r)
    else ([], c :: rest)

/-- Value of a digit sequence, most significant first. -/
def digitsToNat (ds : List Char) : Nat :=
  ds.foldl (fun a c => a * 10 + (c.toNat - 48)) 0

/-- Parse a JSON integer (optional minus sign and decimal digits). -/
def parseJNum : List Char → Except String (Int × List Char)
  | [] => .error "empty number"
  | c :: rest =>
    if c = '-' then
      let (ds, r) := takeDigits rest
      if ds = [] then .error "invalid number" else .ok (-(digitsToNat ds : Int), r)
    else
      let (ds, r) := takeDigits (c :: rest)
      if ds = [] then .error "invalid number" else .ok ((digitsToNat ds : Int), r)

/-- Parse a JSON value of the shapes occurring in entries. -/
def parseJval (s : List Char) : Except String (Jval × List Char) :=
  match s with
  | [] => .error "empty value"
  | c :: rest =>
    if c = quoteChar then
      match parseJStringAux rest with
      | .ok (cs, r) => .ok (.jstr ⟨cs⟩, r)
      | .error e => .error e
    else if c = '-' ∨ c.isDigit then
      match parseJNum (c :: rest) with
      | .ok (n, r) => .ok (.jint n, r)
      | .error e => .error e
    else .error "unsupported JSON value"

/-- Parse the key-value pairs of a JSON object after the opening brace (first
key expected next); the fuel, instantiated with an input-length bound on the
pair count, only makes the recursion structural. -/
def parsePairsAux : Nat → List Char → Except String (List (String × Jval) × List Char)
  | 0, _ => .error "object too large"
  | fuel + 1, s =>
    match skipWs s with
    | [] => .error "expected key"
    | c :: rest =>
      if c = quoteChar then
        match parseJStringAux rest with
        | .error e => .error e
        | .ok (k, r1) =>
          match skipWs r1 with
          | [] => .error "expected colon"
          | c2 :: r2 =>
            if c2 = ':' then
              match parseJval (skipWs r2) with
              | .error e => .error e
              | .ok (v, r3) =>
                match skipWs r3 with
                | [] => .error "unterminated object"
                | c3 :: r4 =>
                  if c3 = ',' then
                    match parsePairsAux fuel r4 with
                    | .error e => .error e
                    | .ok (ps, r5) => .ok ((⟨k⟩, v) :: ps, r5)
                  else if c3 = rbraceChar then .ok ([(⟨k⟩, v)], r4)
                  else .error "expected comma or close"
            else .error "expected colon"
      else .error "expected key"

/-- Parse a flat JSON object (the model of `json.loads` restricted to the
object shapes entries produce). -/
def parseJObj (s : List Char) : Except String (List (String × Jval) × List Char) :=
  match skipWs s with
  | [] => .error "expected object"
  | c :: rest =>
    if c = lbraceChar then
      match skipWs rest with
      | [] => .error "unterminated object"
      | c2 :: rest2 =>
        if c2 = rbraceChar then .ok ([], rest2)
        else parsePairsAux ((c2 :: rest2).length + 1) (c2 :: rest2)
    else .error "expected object"

/-- Replace-or-append update of a parsed-object binding (Python `dict`
semantics: later duplicate keys overwrite, first insertion position kept). -/
def jset (d : List (String × Jval)) (k : String) (v : Jval) : List (String × Jval) :=
  match d with
  | [] => [(k, v)]
  | (k1, v1) :: rest => if k1 = k then (k, v) :: rest else (k1, v1) :: jset rest k v

/-- The dictionary built from parsed pairs (`json.loads` returns a `dict`). -/
def toDict (ps : List (String × Jval)) : List (String × Jval) :=
  ps.foldl (fun d p => jset d p.1 p.2) []

/-- First binding of a key in a dictionary. -/
def jlookup (d : List (String × Jval)) (k : String) : Option Jval :=
  match d with
  | [] => none
  | (k1, v1) :: rest => if k1 = k then some v1 else jlookup rest k

/-- Parse a decimal integer string completely (the model of Python `int(s)`
on the string shapes that occur; other accepted Python forms such as
underscores or surrounding whitespace do not arise here). -/
def strToIntOpt (s : String) : Option Int :=
  match s.data with
  | [] => none
  | c :: rest =>
    if c = '-' then
      let (ds, r) := takeDigits rest
      if ds = [] ∨ r ≠ [] then none else some (-(digitsToNat ds : Int))
    else
      let (ds, r) := takeDigits (c :: rest)
      if ds = [] ∨ r ≠ [] then none else some ((digitsToNat ds : Int))

/-- A required string-typed field (`Path(...)`/plain string fields raise on
non-string JSON values; a missing key raises). -/
def jStrField (d : List (String × Jval)) (k : String) : Except String String :=
  match jlookup d k with
  | some (.jstr s) => .ok s
  | some _ => .error "bad field type"
  | none => .error "missing required key"

/-- A required integer-typed field (`int(...)`/`float(...)` accept integers
and integral strings; a missing key raises). -/
def jIntField (d : List (String × Jval)) (k : String) : Except String Int :=
  match jlookup d k with
  | some (.jint n) => .ok n
  | some (.jstr s) =>
    match strToIntOpt s with
    | some n => .ok n
    | none => .error "bad field type"
  | none => .error "missing required key"

/-- The entry classes, as looked up in `ENTRY_TYPE_TO_CLASS`. -/
inductive EKind where
  | kfile
  | kmetadata
  | ktransferRequest
  | kverifyRequest
  | ktransferVerified
  | ksyncRequest
  | ksyncDone
  deriving DecidableEq, Repr

/-- Model of `ENTRY_TYPE_TO_CLASS` (tag to class; `none` is the `KeyError`
for an unknown tag). -/
def kindOfTag (tag : String) : Option EKind :=
  if tag = "FILE" then some .kfile
  else if tag = "METADATA" then some .kmetadata
  else if tag = "TRANSFER_REQUEST" then some .ktransferRequest
  else if tag = "VERIFY_REQUEST" then some .kverifyRequest
  else if tag = "TRANSFER_VERIFIED" then some .ktransferVerified
  else if tag = "SYNC_REQUEST" then some .ksyncRequest
  else if tag = "SYNC_DONE" then some .ksyncDone
  else none

/-- Model of `cls(**info)`: extract and validate the required fields of the
class from the parsed dictionary (extra keys are tolerated with a warning;
any missing required key raises). -/
def buildEntry : EKind → List (String × Jval) → Except String Entry
  | .kfile, d => do
    let n ← jStrField d "name"
    let s ← jIntField d "size"
    .ok (.file n s)
  | .kmetadata, d => do
    let n ← jStrField d "name"
    let s ← jIntField d "size"
    let dg ← jStrField d "digest"
    .ok (.metadata n s dg)
  | .ktransferRequest, d => do
    let n ← jStrField d "name"
    let s ← jIntField d "size"
    .ok (.transferRequest n s)
  | .kverifyRequest, d => do
    let n ← jStrField d "name"
    let s ← jIntField d "size"
    .ok (.verifyRequest n s)
  | .ktransferVerified, d => do
    let n ← jStrField d "name"
    let s ← jIntField d "size"
    let dg ← jStrField d "digest"
    let ts ← jIntField d "timestamp"
    .ok (.transferVerified n s dg ts)
  | .ksyncRequest, d => do
    let dir ← jStrField d "direction"
    let rp ← jStrField d "remote_prefix"
    let fas ← jIntField d "files_at_source"
    let ftt ← jIntField d "files_to_transfer"
    let btt ← jIntField d "bytes_to_transfer"
    let ftv ← jIntField d "files_to_verify"
    let btv ← jIntField d "bytes_to_verify"
    let ts ← jIntField d "timestamp"
    .ok (.syncRequest dir rp fas ftt btt ftv btv ts)
  | .ksyncDone, d => do
    let ts ← jIntField d "timestamp"
    .ok (.syncDone ts)

/-- Model of `parse_manifest_entry`: strip the line, split off the tag, look
the tag up (a `KeyError` for an unknown tag, raised before the JSON is
touched), parse the JSON object (rejecting trailing data, as `json.loads`
does) and construct the entry. -/
def parse_manifest_entry (line : String) : Except String Entry :=
  match splitFirstWs (stripChars line.data) with
  | none => .error "not enough values to unpack"
  | some (tok, rest) =>
    match kindOfTag ⟨tok⟩ with
    | none => .error "unknown entry type"
    | some k =>
      match parseJObj rest with
      | .error e => .error e
      | .ok (ps, rem) =>
        if skipWs rem = [] then buildEntry k (toDict ps)
        else .error "Extra data"

/-- Whether parsing a line raises. -/
def parseFails (line : String) : Bool :=
  match parse_manifest_entry line with
  | .error _ => true
  | .ok _ => false

/-! ## Round-trip lemmas for the wire format -/

theorem mapCons_ok (c : Char) (cs r : List Char) :
    mapCons c (.ok (cs, r)) = .ok (c :: cs, r) := rfl

theorem hexVal_hexDigitChar (m : Nat) (h : m < 16) : hexVal (hexDigitChar m) = some m := by
  interval_cases m <;> rfl

theorem hexQuad_encode (t : Nat) (h : t < 32) :
    hexQuad '0' '0' (hexDigitChar (t / 16)) (hexDigitChar (t % 16)) = some t := by
  unfold hexQuad
  rw [hexVal_hexDigitChar (t / 16) (by omega), hexVal_hexDigitChar (t % 16) (by omega),
    show hexVal '0' = some 0 from rfl]
  dsimp only
  congr 1
  omega

theorem parseHexEsc_encode (t : Nat) (h : t < 32) (k : Except String (List Char × List Char)) :
    parseHexEsc '0' '0' (hexDigitChar (t / 16)) (hexDigitChar (t % 16)) k =
      mapCons (Char.ofNat t) k := by
  unfold parseHexEsc
  rw [hexQuad_encode t h]

/-- Decoding inverts the `json.dumps` escaper: parsing the escaped form of `s`
followed by a closing quote yields `s` and the remainder. -/
theorem parseJStringAux_escList (s rest : List Char) :
    parseJStringAux (escList s ++ quoteChar :: rest) = .ok (s, rest) := by
  induction s with
  | nil =>
    show parseJStringAux (quoteChar :: rest) = .ok ([], rest)
    rw [parseJStringAux.eq_def]
    simp only []
    rfl
  | cons c cs ih =>
    rw [escList, List.append_assoc]
    unfold escChar
    by_cases h1 : c = quoteChar
    · rw [if_pos h1, h1]
      show parseJStringAux (backslashChar :: quoteChar ::
          (escList cs ++ quoteChar :: rest)) = .ok (quoteChar :: cs, rest)
      have hred : parseJStringAux (backslashChar :: quoteChar ::
            (escList cs ++ quoteChar :: rest)) =
          mapCons quoteChar (parseJStringAux (escList cs ++ quoteChar :: rest)) := by
        rw [parseJStringAux.eq_def]
        simp only []
        rfl
      rw [hred, ih, mapCons_ok]
    · rw [if_neg h1]
      by_cases h2 : c = backslashChar
      · rw [if_pos h2, h2]
        show parseJStringAux (backslashChar :: backslashChar ::
            (escList cs ++ quoteChar :: rest)) = .ok (backslashChar :: cs, rest)
        have hred : parseJStringAux (backslashChar :: backslashChar ::
              (escList cs ++ quoteChar :: rest)) =
            mapCons backslashChar (parseJStringAux (escList cs ++ quoteChar :: rest)) := by
          rw [parseJStringAux.eq_def]
          simp only []
          rfl
        rw [hred, ih, mapCons_ok]
      · rw [if_neg h2]
        by_cases h3 : c = Char.ofNat 10
        · rw [if_pos h3, h3]
          show parseJStringAux (backslashChar :: 'n' ::
              (escList cs ++ quoteChar :: rest)) = .ok (Char.ofNat 10 :: cs, rest)
          have hred : parseJStringAux (backslashChar :: 'n' ::
                (escList cs ++ quoteChar :: rest)) =
              mapCons (Char.ofNat 10) (parseJStringAux (escList cs ++ quoteChar :: rest)) := by
            rw [parseJStringAux.eq_def]
            simp only []
            rfl
          rw [hred, ih, mapCons_ok]
        · rw [if_neg h3]
          by_cases h4 : c = Char.ofNat 9
          · rw [if_pos h4, h4]
            show parseJStringAux (backslashChar :: 't' ::
                (escList cs ++ quoteChar :: rest)) = .ok (Char.ofNat 9 :: cs, rest)
            have hred : parseJStringAux (backslashChar :: 't' ::
                  (escList cs ++ quoteChar :: rest)) =
                mapCons (Char.ofNat 9) (parseJStringAux (escList cs ++ quoteChar :: rest)) := by
              rw [parseJStringAux.eq_def]
              simp only []
              rfl
            rw [hred, ih, mapCons_ok]
          · rw [if_neg h4]
            by_cases h5 : c = Char.ofNat 13
            · rw [if_pos h5, h5]
              show parseJStringAux (backslashChar :: 'r' ::
                  (escList cs ++ quoteChar :: rest)) = .ok (Char.ofNat 13 :: cs, rest)
              have hred : parseJStringAux (backslashChar :: 'r' ::
                    (escList cs ++ quoteChar :: rest)) =
                  mapCons (Char.ofNat 13)
                    (parseJStringAux (escList cs ++ quoteChar :: rest)) := by
                rw [parseJStringAux.eq_def]
                simp only []
                rfl
              rw [hred, ih, mapCons_ok]
            · rw [if_neg h5]
              by_cases h6 : c = Char.ofNat 8
              · rw [if_pos h6, h6]
                show parseJStringAux (backslashChar :: 'b' ::
                    (escList cs ++ quoteChar :: rest)) = .ok (Char.ofNat 8 :: cs, rest)
                have hred : parseJStringAux (backslashChar :: 'b' ::
                      (escList cs ++ quoteChar :: rest)) =
                    mapCons (Char.ofNat 8)
                      (parseJStringAux (escList cs ++ quoteChar :: rest)) := by
                  rw [parseJStringAux.eq_def]
                  simp only []
                  rfl
                rw [hred, ih, mapCons_ok]
              · rw [if_neg h6]
                by_cases h7 : c = Char.ofNat 12
                · rw [if_pos h7, h7]
                  show parseJStringAux (backslashChar :: 'f' ::
                      (escList cs ++ quoteChar :: rest)) = .ok (Char.ofNat 12 :: cs, rest)
                  have hred : parseJStringAux (backslashChar :: 'f' ::
                        (escList cs ++ quoteChar :: rest)) =
                      mapCons (Char.ofNat 12)
                        (parseJStringAux (escList cs ++ quoteChar :: rest)) := by
                    rw [parseJStringAux.eq_def]
                    simp only []
                    rfl
                  rw [hred, ih, mapCons_ok]
                · rw [if_neg h7]
                  by_cases h8 : c.toNat < 32
                  · rw [if_pos h8]
                    show parseJStringAux (backslashChar :: 'u' :: '0' :: '0' ::
                        hexDigitChar (c.toNat / 16) :: hexDigitChar (c.toNat % 16) ::
                        (escList cs ++ quoteChar :: rest)) = .ok (c :: cs, rest)
                    have hred : parseJStringAux (backslashChar :: 'u' :: '0' :: '0' ::
                          hexDigitChar (c.toNat / 16) :: hexDigitChar (c.toNat % 16) ::
                          (escList cs ++ quoteChar :: rest)) =
                        parseHexEsc '0' '0' (hexDigitChar (c.toNat / 16))
                          (hexDigitChar (c.toNat % 16))
                          (parseJStringAux (escList cs ++ quoteChar :: rest)) := by
                      rw [parseJStringAux.eq_def]
                      simp only []
                      rfl
                    rw [hred, parseHexEsc_encode c.toNat h8, Char.ofNat_toNat, ih, mapCons_ok]
                  · rw [if_neg h8]
                    show parseJStringAux (c :: (escList cs ++ quoteChar :: rest)) =
                        .ok (c :: cs, rest)
                    rw [parseJStringAux.eq_def]
                    simp only []
                    rw [if_neg h1, if_neg h2, ih, mapCons_ok]

theorem isDigit_digitChar (m : Nat) (h : m < 10) : (digitChar m).isDigit = true := by
  interval_cases m <;> rfl

theorem digitChar_toNat (m : Nat) (h : m < 10) : (digitChar m).toNat = 48 + m := by
  interval_cases m <;> rfl

theorem natToCharsAux_digits (fuel : Nat) : ∀ n, n < fuel →
    (∀ c ∈ natToCharsAux fuel n, c.isDigit = true) ∧ natToCharsAux fuel n ≠ [] := by
  induction fuel with
  | zero =>
    intro n h
    omega
  | succ fuel ih =>
    intro n hn
    by_cases h10 : n < 10
    · refine ⟨?_, ?_⟩
      · intro c hc
        simp only [natToCharsAux, if_pos h10, List.mem_singleton] at hc
        subst hc
        exact isDigit_digitChar n h10
      · simp only [natToCharsAux, if_pos h10]
        exact List.cons_ne_nil _ _
    · have hdiv : n / 10 < fuel := by
        have h2 := Nat.div_lt_self (show 0 < n by omega) (show 1 < 10 by omega)
        omega
      refine ⟨?_, ?_⟩
      · intro c hc
        simp only [natToCharsAux, if_neg h10, List.mem_append, List.mem_singleton] at hc
        rcases hc with hc | hc
        · exact (ih (n / 10) hdiv).1 c hc
        · subst hc
          exact isDigit_digitChar (n % 10) (Nat.mod_lt _ (by omega))
      · simp only [natToCharsAux, if_neg h10]
        intro hcontra
        exact absurd (List.append_eq_nil.1 hcontra).2 (List.cons_ne_nil _ _)

theorem natToChars_digits (n : Nat) :
    (∀ c ∈ natToChars n, c.isDigit = true) ∧ natToChars n ≠ [] :=
  natToCharsAux_digits (n + 1) n (by omega)

theorem digitsToNat_append (ds : List Char) (c : Char) :
    digitsToNat (ds ++ [c]) = digitsToNat ds * 10 + (c.toNat - 48) := by
  unfold digitsToNat
  rw [List.foldl_append]
  rfl

theorem digitsToNat_natToCharsAux (fuel : Nat) : ∀ n, n < fuel →
    digitsToNat (natToCharsAux fuel n) = n := by
  induction fuel with
  | zero =>
    intro n h
    omega
  | succ fuel ih =>
    intro n hn
    by_cases h10 : n < 10
    · simp only [natToCharsAux, if_pos h10]
      show digitsToNat [digitChar n] = n
      unfold digitsToNat
      simp only [List.foldl_cons, List.foldl_nil]
      rw [digitChar_toNat n h10]
      omega
    · have hdiv : n / 10 < fuel := by
        have h2 := Nat.div_lt_self (show 0 < n by omega) (show 1 < 10 by omega)
        omega
      simp only [natToCharsAux, if_neg h10]
      rw [digitsToNat_append, ih (n / 10) hdiv,
        digitChar_toNat (n % 10) (Nat.mod_lt _ (by omega))]
      omega

theorem digitsToNat_natToChars (n : Nat) : digitsToNat (natToChars n) = n :=
  digitsToNat_natToCharsAux (n + 1) n (by omega)

/-- A trailing context at which a number literal stops: empty, or starting
with a non-digit. -/
def numBoundary : List Char → Prop
  | [] => True
  | c :: _ => c.isDigit = false

theorem takeDigits_all_digits (ds rest : List Char)
    (hall : ∀ c ∈ ds, c.isDigit = true) (hrest : numBoundary rest) :
    takeDigits (ds ++ rest) = (ds, rest) := by
  induction ds with
  | nil =>
    cases rest with
    | nil => rfl
    | cons c r =>
      have hb : c.isDigit = false := hrest
      show takeDigits (c :: r) = ([], c :: r)
      rw [takeDigits.eq_def]
      simp only []
      rw [if_neg (by simp [hb])]
  | cons d ds ih =>
    show takeDigits (d :: (ds ++ rest)) = (d :: ds, rest)
    rw [takeDigits.eq_def]
    simp only []
    rw [if_pos (hall d (List.mem_cons_self d ds)),
      ih (fun c hc => hall c (List.mem_cons_of_mem d hc))]

theorem parseJNum_intToChars (n : Int) (rest : List Char) (hrest : numBoundary rest) :
    parseJNum (intToChars n ++ rest) = .ok (n, rest) := by
  have hnat : ∀ m : Nat, takeDigits (natToChars m ++ rest) = (natToChars m, rest) :=
    fun m => takeDigits_all_digits _ rest (natToChars_digits m).1 hrest
  cases n with
  | ofNat m =>
    obtain ⟨d, ds, hds⟩ : ∃ d ds, natToChars m = d :: ds := by
      rcases hnn : natToChars m with _ | ⟨d, ds⟩
      · exact absurd hnn (natToChars_digits m).2
      · exact ⟨d, ds, rfl⟩
    have hd : d.isDigit = true :=
      (natToChars_digits m).1 d (by rw [hds]; exact List.mem_cons_self _ _)
    show parseJNum (natToChars m ++ rest) = .ok (Int.ofNat m, rest)
    rw [hds, List.cons_append, parseJNum.eq_def]
    simp only []
    rw [if_neg (show ¬(d = '-') from fun hc => by
      rw [hc] at hd
      exact absurd hd (by decide))]
    rw [← List.cons_append, ← hds, hnat m]
    simp only []
    rw [if_neg (natToChars_digits m).2, digitsToNat_natToChars]
    rfl
  | negSucc m =>
    show parseJNum ('-' :: (natToChars (m + 1) ++ rest)) = .ok (Int.negSucc m, rest)
    rw [parseJNum.eq_def]
    simp only []
    rw [hnat (m + 1)]
    simp only []
    rw [if_neg (natToChars_digits (m + 1)).2, digitsToNat_natToChars]
    have hneg : -((m + 1 : Nat) : Int) = Int.negSucc m := by
      rw [Int.negSucc_eq]
      push_cast
      ring
    rw [hneg]
    rfl

theorem skipWs_cons_not (c : Char) (s : List Char) (h : isWs c = false) :
    skipWs (c :: s) = c :: s := by
  simp [skipWs, List.dropWhile_cons, h]

theorem skipWs_cons_ws (c : Char) (s : List Char) (h : isWs c = true) :
    skipWs (c :: s) = skipWs s := by
  simp [skipWs, List.dropWhile_cons, h]

theorem isWs_false_of_isDigit (c : Char) (h : c.isDigit = true) : isWs c = false := by
  simp only [isWs, decide_eq_false_iff_not]
  rintro (rfl | rfl | rfl | rfl) <;> exact absurd h (by decide)

theorem renderJval_head_skipWs (v : Jval) (X : List Char) :
    skipWs (renderJval v ++ X) = renderJval v ++ X := by
  cases v with
  | jstr s =>
    have hsh : renderJval (.jstr s) ++ X =
        quoteChar :: (escList s.data ++ [quoteChar] ++ X) := by
      simp [renderJval, escString]
    rw [hsh, skipWs_cons_not _ _ (by decide)]
  | jint n =>
    cases n with
    | ofNat m =>
      obtain ⟨d, ds, hds⟩ : ∃ d ds, natToChars m = d :: ds := by
        rcases hnn : natToChars m with _ | ⟨d, ds⟩
        · exact absurd hnn (natToChars_digits m).2
        · exact ⟨d, ds, rfl⟩
      have hd : d.isDigit = true :=
        (natToChars_digits m).1 d (by rw [hds]; exact List.mem_cons_self _ _)
      show skipWs (natToChars m ++ X) = natToChars m ++ X
      rw [hds, List.cons_append, skipWs_cons_not _ _ (isWs_false_of_isDigit d hd)]
    | negSucc m =>
      have hsh : renderJval (.jint (Int.negSucc m)) ++ X =
          '-' :: (natToChars (m + 1) ++ X) := by
        simp [renderJval, intToChars]
      rw [hsh, skipWs_cons_not _ _ (by decide)]

theorem parseJval_render (v : Jval) (rest : List Char) (hrest : numBoundary rest) :
    parseJval (renderJval v ++ rest) = .ok (v, rest) := by
  cases v with
  | jstr s =>
    show parseJval ((quoteChar :: escList s.data ++ [quoteChar]) ++ rest) = _
    have hsh : (quoteChar :: escList s.data ++ [quoteChar]) ++ rest =
        quoteChar :: (escList s.data ++ quoteChar :: rest) := by
      simp
    rw [hsh, parseJval.eq_def]
    simp only []
    rw [parseJStringAux_escList]
    rfl
  | jint n =>
    cases n with
    | ofNat m =>
      obtain ⟨d, ds, hds⟩ : ∃ d ds, natToChars m = d :: ds := by
        rcases hnn : natToChars m with _ | ⟨d, ds⟩
        · exact absurd hnn (natToChars_digits m).2
        · exact ⟨d, ds, rfl⟩
      have hd : d.isDigit = true :=
        (natToChars_digits m).1 d (by rw [hds]; exact List.mem_cons_self _ _)
      have hnum : parseJNum (natToChars m ++ rest) = .ok (Int.ofNat m, rest) :=
        parseJNum_intToChars (Int.ofNat m) rest hrest
      show parseJval (natToChars m ++ rest) = .ok (.jint (Int.ofNat m), rest)
      rw [hds, List.cons_append, parseJval.eq_def]
      simp only []
      rw [if_neg (show ¬(d = quoteChar) from fun hc => by
        rw [hc] at hd
        exact absurd hd (by decide))]
      rw [if_pos (Or.inr hd), ← List.cons_append, ← hds, hnum]
    | negSucc m =>
      have hnum : parseJNum ('-' :: (natToChars (m + 1) ++ rest)) =
          .ok (Int.negSucc m, rest) :=
        parseJNum_intToChars (Int.negSucc m) rest hrest
      show parseJval ('-' :: (natToChars (m + 1) ++ rest)) = .ok (.jint (Int.negSucc m), rest)
      rw [parseJval.eq_def]
      simp only []
      rw [hnum]
      rfl

theorem renderPairs_len (flds : List (String × Jval)) :
    flds.length ≤ (renderPairs flds).length := by
  induction flds with
  | nil => simp [renderPairs]
  | cons hd tl ih =>
    obtain ⟨k, v⟩ := hd
    cases tl with
    | nil =>
      simp [renderPairs, escString]
    | cons hd2 tl2 =>
      simp only [renderPairs, escString, List.length_append, List.length_cons,
        List.length_nil] at ih ⊢
      omega

theorem parsePairsAux_cons_ws (f : Nat) (c : Char) (hc : isWs c = true) (s : List Char) :
    parsePairsAux (f + 1) (c :: s) = parsePairsAux (f + 1) s := by
  rw [parsePairsAux.eq_def]
  conv_rhs => rw [parsePairsAux.eq_def]
  simp only []
  rw [skipWs_cons_ws c s hc]

theorem parsePairsAux_render (flds : List (String × Jval)) :
    ∀ (fuel : Nat) (rest : List Char), flds ≠ [] → flds.length ≤ fuel →
    parsePairsAux fuel (renderPairs flds ++ rbraceChar :: rest) = .ok (flds, rest) := by
  induction flds with
  | nil =>
    intro fuel rest hne _
    exact absurd rfl hne
  | cons hd tl ih =>
    intro fuel rest _ hfuel
    obtain ⟨k, v⟩ := hd
    obtain ⟨fuel, rfl⟩ : ∃ f, fuel = f + 1 := by
      refine ⟨fuel - 1, ?_⟩
      simp only [List.length_cons] at hfuel
      omega
    cases tl with
    | nil =>
      have hsh : renderPairs [(k, v)] ++ rbraceChar :: rest =
          quoteChar :: (escList k.data ++ quoteChar ::
            (':' :: ' ' :: (renderJval v ++ rbraceChar :: rest))) := by
        simp [renderPairs, escString]
      rw [hsh, parsePairsAux.eq_def]
      simp only []
      rw [skipWs_cons_not _ _ (by decide)]
      simp only []
      rw [parseJStringAux_escList]
      simp only []
      rw [skipWs_cons_not _ _ (by decide)]
      simp only []
      rw [skipWs_cons_ws _ _ (by decide), renderJval_head_skipWs]
      have hjv : parseJval (renderJval v ++ rbraceChar :: rest) =
          .ok (v, rbraceChar :: rest) :=
        parseJval_render v _ ((by decide : rbraceChar.isDigit = false) :
          numBoundary (rbraceChar :: rest))
      rw [hjv]
      simp only []
      rw [skipWs_cons_not _ _ (by decide)]
      simp only []
      rw [if_neg (by decide : ¬(rbraceChar = ','))]
      rfl
    | cons hd2 tl2 =>
      have hsh : renderPairs ((k, v) :: hd2 :: tl2) ++ rbraceChar :: rest =
          quoteChar :: (escList k.data ++ quoteChar ::
            (':' :: ' ' :: (renderJval v ++ ',' :: ' ' ::
              (renderPairs (hd2 :: tl2) ++ rbraceChar :: rest)))) := by
        simp [renderPairs, escString]
      obtain ⟨f2, rfl⟩ : ∃ f2, fuel = f2 + 1 := by
        refine ⟨fuel - 1, ?_⟩
        simp only [List.length_cons] at hfuel
        omega
      rw [hsh, parsePairsAux.eq_def]
      simp only []
      rw [skipWs_cons_not _ _ (by decide)]
      simp only []
      rw [parseJStringAux_escList]
      simp only []
      rw [skipWs_cons_not _ _ (by decide)]
      simp only []
      rw [skipWs_cons_ws _ _ (by decide), renderJval_head_skipWs]
      have hjv : parseJval (renderJval v ++ ',' :: ' ' ::
          (renderPairs (hd2 :: tl2) ++ rbraceChar :: rest)) =
          .ok (v, ',' :: ' ' :: (renderPairs (hd2 :: tl2) ++ rbraceChar :: rest)) :=
        parseJval_render v _ ((by decide : (',').isDigit = false) :
          numBoundary (',' :: ' ' :: (renderPairs (hd2 :: tl2) ++ rbraceChar :: rest)))
      rw [hjv]
      simp only []
      rw [skipWs_cons_not _ _ (by decide)]
      simp only []
      rw [parsePairsAux_cons_ws f2 ' ' (by decide)]
      rw [ih (f2 + 1) rest (List.cons_ne_nil _ _) (by
        simp only [List.length_cons] at hfuel ⊢
        omega)]
      rfl

theorem renderPairs_cons_quote (k : String) (v : Jval) (tl : List (String × Jval)) :
    ∃ t, renderPairs ((k, v) :: tl) = quoteChar :: t := by
  cases tl with
  | nil =>
    exact ⟨escList k.data ++ quoteChar :: ':' :: ' ' :: renderJval v,
      by simp [renderPairs, escString]⟩
  | cons hd2 tl2 =>
    exact ⟨escList k.data ++ quoteChar :: ':' :: ' ' ::
      (renderJval v ++ ',' :: ' ' :: renderPairs (hd2 :: tl2)),
      by simp [renderPairs, escString]⟩

theorem parseJObj_render (flds : List (String × Jval)) (rest : List Char) (hne : flds ≠ []) :
    parseJObj (renderObj flds ++ rest) = .ok (flds, rest) := by
  obtain ⟨⟨k, v⟩, tl, rfl⟩ : ∃ hd tl, flds = hd :: tl := by
    cases flds with
    | nil => exact absurd rfl hne
    | cons hd tl => exact ⟨hd, tl, rfl⟩
  obtain ⟨t, ht⟩ := renderPairs_cons_quote k v tl
  have hsh : renderObj ((k, v) :: tl) ++ rest =
      lbraceChar :: (renderPairs ((k, v) :: tl) ++ rbraceChar :: rest) := by
    simp [renderObj]
  rw [hsh]
  unfold parseJObj
  rw [skipWs_cons_not _ _ (by decide)]
  simp only []
  rw [ht, List.cons_append, skipWs_cons_not _ _ (by decide)]
  simp only []
  rw [if_neg (by decide : ¬(quoteChar = rbraceChar)), ← List.cons_append, ← ht]
  have hfuel : ((k, v) :: tl).length ≤
      (renderPairs ((k, v) :: tl) ++ rbraceChar :: rest).length + 1 := by
    have h2 := renderPairs_len ((k, v) :: tl)
    simp only [List.length_append, List.length_cons] at h2 ⊢
    omega
  rw [parsePairsAux_render ((k, v) :: tl) _ rest (List.cons_ne_nil _ _) hfuel]
  rfl

theorem takeUntilWs_append (tok rest : List Char) (htok : ∀ c ∈ tok, isWs c = false)
    (hrest : rest = [] ∨ ∃ c r, rest = c :: r ∧ isWs c = true) :
    takeUntilWs (tok ++ rest) = (tok, rest) := by
  induction tok with
  | nil =>
    rcases hrest with rfl | ⟨c, r, rfl, hc⟩
    · rfl
    · show takeUntilWs (c :: r) = ([], c :: r)
      rw [takeUntilWs.eq_def]
      simp only []
      rw [if_pos hc]
  | cons x xs ih =>
    show takeUntilWs (x :: (xs ++ rest)) = (x :: xs, rest)
    rw [takeUntilWs.eq_def]
    simp only []
    rw [if_neg (by simp [htok x (List.mem_cons_self x xs)]),
      ih (fun c hc => htok c (List.mem_cons_of_mem x hc))]

theorem stripChars_of_ends (x : Char) (mid : List Char) (y : Char)
    (hx : isWs x = false) (hy : isWs y = false) :
    stripChars (x :: (mid ++ [y])) = x :: (mid ++ [y]) := by
  unfold stripChars
  rw [skipWs_cons_not x (mid ++ [y]) hx]
  have h1 : (x :: (mid ++ [y])).reverse = y :: (mid.reverse ++ [x]) := by
    simp
  rw [h1, List.dropWhile_cons, if_neg (by simp [hy])]
  simp

/-- Parsing inverts serialization at the level of a tagged object line. -/
theorem parse_manifest_entry_serialized (tag : String) (k : EKind)
    (flds : List (String × Jval)) (hkind : kindOfTag tag = some k)
    (htag : ∀ c ∈ tag.data, isWs c = false) (hne : tag.data ≠ [])
    (hflds : flds ≠ []) :
    parse_manifest_entry ⟨tag.data ++ ' ' :: renderObj flds⟩ =
      buildEntry k (toDict flds) := by
  obtain ⟨x, xs, hx⟩ : ∃ x xs, tag.data = x :: xs := by
    cases htd : tag.data with
    | nil => exact absurd htd hne
    | cons x xs => exact ⟨x, xs, rfl⟩
  have hstrip : stripChars (tag.data ++ ' ' :: renderObj flds) =
      tag.data ++ ' ' :: renderObj flds := by
    have hsh : tag.data ++ ' ' :: renderObj flds =
        x :: ((xs ++ ' ' :: lbraceChar :: renderPairs flds) ++ [rbraceChar]) := by
      rw [hx]
      simp [renderObj]
    rw [hsh, stripChars_of_ends x _ rbraceChar
      (htag x (by rw [hx]; exact List.mem_cons_self x xs)) (by decide)]
  have hro_ne : renderObj flds ≠ [] := by
    simp [renderObj]
  have hro_skip : skipWs (renderObj flds) = renderObj flds := by
    unfold renderObj
    rw [List.cons_append, skipWs_cons_not _ _ (by decide)]
  have hsplit : splitFirstWs (tag.data ++ ' ' :: renderObj flds) =
      some (tag.data, renderObj flds) := by
    unfold splitFirstWs
    rw [takeUntilWs_append tag.data (' ' :: renderObj flds) htag
      (Or.inr ⟨' ', renderObj flds, rfl, by decide⟩)]
    simp only []
    rw [skipWs_cons_ws _ _ (by decide), hro_skip, if_neg hro_ne]
  have hobj : parseJObj (renderObj flds) = .ok (flds, []) := by
    have h2 := parseJObj_render flds [] hflds
    rwa [List.append_nil] at h2
  unfold parse_manifest_entry
  rw [show (⟨tag.data ++ ' ' :: renderObj flds⟩ : String).data =
    tag.data ++ ' ' :: renderObj flds from rfl]
  rw [hstrip, hsplit]
  simp only []
  rw [show (⟨tag.data⟩ : String) = tag from rfl, hkind]
  simp only []
  rw [hobj]
  rfl

/-! ## Claim C6

Round-trip of the wire format: parsing the serialized one-line form of any
entry yields a structurally equal entry, and parsing raises (propagating, not
swallowing) both on malformed JSON after a known tag and on an unknown tag. -/

/-- C6: `Parse(Serialize(entry)) == entry` for every variant, and parsing
fails on malformed JSON and on an unknown tag. -/
theorem c6_roundtrip_and_raises :
    (∀ e : Entry, parse_manifest_entry (serializeEntry e) = .ok e) ∧
      parseFails "FILE oops" = true ∧ parseFails "BOGUS_TAG \x7b\x7d" = true := by
  refine ⟨?_, rfl, rfl⟩
  intro e
  cases e with
  | file n s =>
    exact (parse_manifest_entry_serialized "FILE" .kfile
      (entryFields (.file n s)) (by decide) (by decide) (by decide)
      (List.cons_ne_nil _ _)).trans rfl
  | metadata n s dg =>
    exact (parse_manifest_entry_serialized "METADATA" .kmetadata
      (entryFields (.metadata n s dg)) (by decide) (by decide) (by decide)
      (List.cons_ne_nil _ _)).trans rfl
  | transferRequest n s =>
    exact (parse_manifest_entry_serialized "TRANSFER_REQUEST" .ktransferRequest
      (entryFields (.transferRequest n s)) (by decide) (by decide) (by decide)
      (List.cons_ne_nil _ _)).trans rfl
  | verifyRequest n s =>
    exact (parse_manifest_entry_serialized "VERIFY_REQUEST" .kverifyRequest
      (entryFields (.verifyRequest n s)) (by decide) (by decide) (by decide)
      (List.cons_ne_nil _ _)).trans rfl
  | transferVerified n s dg ts =>
    exact (parse_manifest_entry_serialized "TRANSFER_VERIFIED" .ktransferVerified
      (entryFields (.transferVerified n s dg ts)) (by decide) (by decide) (by decide)
      (List.cons_ne_nil _ _)).trans rfl
  | syncRequest d rp fas ftt btt ftv btv ts =>
    exact (parse_manifest_entry_serialized "SYNC_REQUEST" .ksyncRequest
      (entryFields (.syncRequest d rp fas ftt btt ftv btv ts)) (by decide) (by decide)
      (by decide) (List.cons_ne_nil _ _)).trans rfl
  | syncDone ts =>
    exact (parse_manifest_entry_serialized "SYNC_DONE" .ksyncDone
      (entryFields (.syncDone ts)) (by decide) (by decide) (by decide)
      (List.cons_ne_nil _ _)).trans rfl

/-! ## Claim C10 -/

/-- C10: the flattened work-item identifier function is not injective: the two
distinct relative paths `a/b` and `a_SLASH_b` flatten to the same identifier,
so two different files can collide on the same work-item key and metadata file
name. -/
theorem c10_flatten_path_not_injective :
    flatten_path "a/b" = flatten_path "a_SLASH_b" ∧ "a/b" ≠ "a_SLASH_b" := by decide

end Xfer
